import Mathlib

/-!
Verification of the download-reconciliation module `embeddings/utils.py`.

Python strings are embedded as `List Char` (Python indexes and slices
strings by code point, so a character list is a faithful model).  The
ambient process state (filesystem queries, subprocess exit codes and
captured output, availability of the `google.cloud.storage` dependency,
and the bucket-listing API) is a `World` record of query functions; the
filesystem and subprocess side effects a call performs are returned as an
explicit `Effect` trace.  Python exceptions are `Except` errors.
-/

deriving instance DecidableEq for Except

/-- Python `str`, embedded as a list of code points. -/
abbrev Str := List Char

/-- Convenience: the character list of a Lean string literal. -/
def str (s : String) : Str := s.data

/-- Python `s.endswith(suffix)`. -/
def pyEndswith (s suffix : Str) : Bool := suffix.isSuffixOf s

/-- Python `s.rstrip(c)` for a single strip character: remove every
trailing occurrence of `c`. -/
def pyRstrip (c : Char) (s : Str) : Str := (s.reverse.dropWhile (fun d => d = c)).reverse

/-- Helper for `pyReplace`: scan left to right with fuel equal to the
length of the remaining string.  When `old` matches at the current
position (and is nonempty) it is consumed and `new` is emitted, matching
Python's non-overlapping left-to-right replacement. -/
def pyReplaceAux (old new : Str) : Nat → Str → Str
  | _, [] => []
  | 0, s => s
  | fuel + 1, c :: tl =>
    if old.isPrefixOf (c :: tl) ∧ old ≠ [] then
      new ++ pyReplaceAux old new fuel (List.drop (old.length - 1) tl)
    else
      c :: pyReplaceAux old new fuel tl

/-- Python `s.replace(old, new)`: replace every non-overlapping occurrence
of `old`, scanning left to right.  (Python's empty-pattern insertion
behaviour is not modelled; every call site in the module passes a nonempty
pattern.) -/
def pyReplace (s old new : Str) : Str := pyReplaceAux old new s.length s

/-- `occurs old s` holds when `old` appears as a contiguous substring of
`s` (so `pyReplace` would rewrite something). -/
def occurs (old : Str) : Str → Bool
  | [] => old.isPrefixOf []
  | c :: tl => old.isPrefixOf (c :: tl) || occurs old tl

/-- Python `s.split(sep)` for a one-character separator: splits at every
occurrence, keeping empty fields, and always returns at least one field. -/
def pySplit (sep : Char) : Str → List Str
  | [] => [[]]
  | c :: tl =>
    if c = sep then [] :: pySplit sep tl
    else
      match pySplit sep tl with
      | [] => [[c]]
      | h :: t => (c :: h) :: t

/-- Python `sep.join(parts)`. -/
def pyJoinStr (sep : Str) : List Str → Str
  | [] => []
  | [x] => x
  | x :: y :: t => x ++ sep ++ pyJoinStr sep (y :: t)

/-- Python `os.path.dirname(p)`: everything before the last `/`
(empty when `p` has no `/`). -/
def dirname (p : Str) : Str := (((p.reverse.dropWhile (fun d => d ≠ '/')).drop 1)).reverse

/-- Path concatenation with a single slash.  This models both the
f-string `"{a}/{b}"` used for fetch sources and destinations and
`os.path.join(a, b)` as used in this module (the call sites never pass an
absolute second component or a first component with a trailing slash,
where `os.path.join` would differ). -/
def joinSlash (a b : Str) : Str := a ++ '/' :: b

/-- `"https://storage.googleapis.com/"`, the public HTTPS host form. -/
def httpsHost : Str := str "https://storage.googleapis.com/"

/-- `"gs://"`, the native bucket scheme. -/
def gsScheme : Str := str "gs://"

/-- The curl `-w` timing format string from `download_file_with_pget`. -/
def curlInfoFmt : Str := str "%\x7bfilename_effective\x7d took %\x7btime_total\x7ds (%\x7bspeed_download\x7d bytes/sec)\n"

/-- The normalization `maybe_download_with_pget` applies to `remote_path`:
strip trailing slashes, then rewrite the `gs://` scheme to its HTTPS
equivalent (lines 172-173 of the source). -/
def normalizeRemote (rp : Str) : Str := pyReplace (pyRstrip '/' rp) gsScheme httpsHost

/-- The ambient process state queried by the module: filesystem existence
and listing, availability of the optional `google.cloud.storage`
dependency, the bucket-listing API (`bucket → object-name prefix → blob
names`, as returned by `bucket.list_blobs(prefix=...)`), and the exit
code / captured stdout / captured stderr of running an external command. -/
structure World where
  pathExists : Str → Bool
  listdir : Str → List Str
  gcsAvailable : Bool
  blobs : Str → Str → List Str
  procExit : List Str → Int
  procOut : List Str → Str
  procErr : List Str → Str

/-- A filesystem or network side effect performed by the module.
`makedirs p` is `os.makedirs(p, exist_ok=True)` (creates intermediate
segments, no-op when present); `removeFile` is `os.remove`; `listRemote`
is one remote bucket listing; `subprocess` is one external command run
synchronously; `fetch src dst` is one concurrent fetch task
(`download_file_with_pget src dst`) launched by the fan-out. -/
inductive Effect where
  | makedirs (p : Str)
  | removeFile (p : Str)
  | listRemote (remote : Str)
  | subprocess (args : List Str)
  | fetch (src dst : Str)
deriving DecidableEq

/-- The `ImportError` raised by `list_remote_filenames` when
`google-cloud-storage` cannot be imported (the spec's `MissingDependency`
configuration error). -/
inductive PyErr where
  | MissingDependency
deriving DecidableEq

/-- `subprocess.CalledProcessError`, raised by `subprocess.check_call`
when the command exits non-zero. -/
inductive SubprocessErr where
  | CalledProcessError (code : Int)
deriving DecidableEq

/-- `get_env_var_or_default(var_name, default_value)`: reads
`os.environ.get(var_name, "")` (the environment is modelled as a partial
map) and returns the value only when its length is positive. -/
def get_env_var_or_default (env : Str → Option Str) (var_name default_value : Str) : Str :=
  let env_value := (env var_name).getD []
  if env_value.length > 0 then env_value else default_value

/-- `check_files_exist(remote_files, local_path)`: the expected names that
do not literally appear in `os.listdir(local_path)`. -/
def check_files_exist (w : World) (remote_files : List Str) (local_path : Str) : List Str :=
  let local_files := w.listdir local_path
  remote_files.filter (fun file => !decide (file ∈ local_files))

/-- The command constructed by `download_file_with_pget` (lines 75-79):
curl with the timing format when the source ends with `"json"`, pget
otherwise. -/
def fetch_args (remote_path dest_path : Str) : List Str :=
  if pyEndswith remote_path (str "json") then
    [str "curl", str "-w", curlInfoFmt, str "-sLo", dest_path, remote_path]
  else
    [str "pget", remote_path, dest_path]

/-- `download_file_with_pget(remote_path, dest_path)`: builds the command,
runs it as a child process, waits for it to exit, and echoes the captured
stdout/stderr (returned here as the list of printed blocks).  The source
never inspects the process's exit code, so no branch can produce an
error. -/
def download_file_with_pget (w : World) (remote_path dest_path : Str) :
    Except SubprocessErr (List Effect × List Str) :=
  let args := fetch_args remote_path dest_path
  let stdout := w.procOut args
  let stderr := w.procErr args
  let printed :=
    (if stdout ≠ [] then [str "[stdout]\n" ++ stdout] else []) ++
    (if stderr ≠ [] then [str "[stderr]\n" ++ stderr] else [])
  .ok ([Effect.subprocess args], printed)

/-- `download_file(file, local_filename)` (lines 49-60): remove an
existing destination, create its parent directory when the name is
nested, then `subprocess.check_call(["pget", file, local_filename])`,
which raises `CalledProcessError` on a non-zero exit. -/
def download_file (w : World) (file local_filename : Str) :
    Except SubprocessErr (List Effect) :=
  let removeTrace :=
    if w.pathExists local_filename then [Effect.removeFile local_filename] else []
  let dirTrace :=
    if '/' ∈ local_filename then
      if w.pathExists (dirname local_filename) then []
      else [Effect.makedirs (dirname local_filename)]
    else []
  let command := [str "pget", file, local_filename]
  if w.procExit command = 0 then
    .ok (removeTrace ++ dirTrace ++ [Effect.subprocess command])
  else
    .error (.CalledProcessError (w.procExit command))

/-- `download_files_with_pget(remote_path, path, files)`: the
`asyncio.gather` fan-out, one `download_file_with_pget` task per file with
source `f"{remote_path}/{file}"` and destination `f"{path}/{file}"`.  The
tasks run concurrently and are joined together; the trace records them in
launch order. -/
def download_files_with_pget (remote_path path : Str) (files : List Str) : List Effect :=
  files.map (fun file => Effect.fetch (joinSlash remote_path file) (joinSlash path file))

/-- `list_remote_filenames(remote_path)` (lines 106-139): raises
`ImportError` when `google.cloud.storage` is unavailable; otherwise
strips the HTTPS host form and the `gs://` scheme, splits on `/` into
`bucket_name` and the remaining `prefix`, lists the blobs under that
prefix, and returns `blob.name[len(prefix) + 1:]` for each blob. -/
def list_remote_filenames (w : World) (remote_path : Str) : Except PyErr (List Str) :=
  if w.gcsAvailable then
    let stripped := pyReplace (pyReplace remote_path httpsHost []) gsScheme []
    let parts := pySplit '/' stripped
    let bucket_name := parts.headI
    let pfx := pyJoinStr (str "/") parts.tail
    let names := w.blobs bucket_name pfx
    .ok (names.map (fun n => n.drop (pfx.length + 1)))
  else
    .error .MissingDependency

/-- `d` is already present because of an earlier `os.makedirs(c)` in this
call: either `d` itself was created or `d` is an ancestor directory of a
created path (`os.makedirs` creates intermediate segments). -/
def madeByMakedirs (d : Str) (created : List Str) : Bool :=
  created.any (fun c => c = d || (d ++ ['/']).isPrefixOf c)

/-- The parent-directory loop of `maybe_download_with_pget` (lines
191-195): for each missing file whose name contains `/`, create
`dirname(os.path.join(path, file))` unless it already exists.  `created`
accumulates the directories made earlier in the call (the live-filesystem
mutation the Python loop observes through `os.path.exists`). -/
def mkParentDirs (w : World) (path : Str) : List Str → List Str → List Effect
  | _, [] => []
  | created, f :: fs =>
    if '/' ∈ f then
      let d := dirname (joinSlash path f)
      if w.pathExists d || madeByMakedirs d created then
        mkParentDirs w path created fs
      else
        Effect.makedirs d :: mkParentDirs w path (d :: created) fs
    else
      mkParentDirs w path created fs

/-- The missing set computed by `maybe_download_with_pget` (lines
178-186): when `path` does not exist every expected name is missing;
otherwise the expected names not literally present in `os.listdir(path)`. -/
def missingFiles (w : World) (path : Str) (files : List Str) : List Str :=
  if !w.pathExists path then files
  else
    let local_files := w.listdir path
    files.filter (fun file => !decide (file ∈ local_files))

/-- The filesystem/fetch stage of `maybe_download_with_pget` (lines
178-198) once the expected names are known: create `path` when absent,
compute the missing set, create parent directories for nested missing
names, then (when anything is missing) launch and join one fetch task per
missing file. -/
def reconcile (w : World) (path rp : Str) (files : List Str) : List Effect :=
  let dirTrace :=
    if !w.pathExists path then [Effect.makedirs path] else []
  let missing := missingFiles w path files
  let parentTrace :=
    mkParentDirs w path (if !w.pathExists path then [path] else []) missing
  let fetchTrace :=
    if missing.length > 0 then download_files_with_pget rp path missing
    else []
  dirTrace ++ parentTrace ++ fetchTrace

/-- `maybe_download_with_pget(path, remote_path, remote_filenames)` (lines
142-203), the reconciliation driver.  `if remote_path:` is false for both
`None` and the empty string, returning `path` with no effects.  Otherwise
the remote is normalized, the expected names are the caller's list or the
remote listing, and the reconcile stage runs.  Returns `path` together
with the effect trace.  (Console printing and the optional logger produce
no filesystem or network effects and are not traced.) -/
def maybe_download_with_pget (w : World) (path : Str) (remote_path : Option Str)
    (remote_filenames : Option (List Str)) : Except PyErr (Str × List Effect) :=
  match remote_path with
  | none => .ok (path, [])
  | some rp0 =>
    if rp0 = [] then .ok (path, [])
    else
      let rp := normalizeRemote rp0
      let listed : Except PyErr (List Str × List Effect) :=
        match remote_filenames with
        | some fs => .ok (fs, [])
        | none =>
          match list_remote_filenames w rp with
          | .error e => .error e
          | .ok fs => .ok (fs, [Effect.listRemote rp])
      match listed with
      | .error e => .error e
      | .ok (files, listTrace) =>
        .ok (path, listTrace ++ reconcile w path rp files)

/-- The fetch tasks recorded in a trace, as (source, destination) pairs. -/
def fetches (tr : List Effect) : List (Str × Str) :=
  tr.filterMap (fun e =>
    match e with
    | .fetch s d => some (s, d)
    | _ => none)

/-! ### String-operation lemmas -/

theorem occurs_cons_eq_false {old : Str} {c : Char} {tl : Str}
    (h : occurs old (c :: tl) = false) :
    old.isPrefixOf (c :: tl) = false ∧ occurs old tl = false := by
  simpa [occurs, Bool.or_eq_false_iff] using h

theorem pyReplaceAux_of_not_occurs {old : Str} (new : Str) :
    ∀ (s : Str) (fuel : Nat), occurs old s = false → pyReplaceAux old new fuel s = s
  | [], fuel, _ => by cases fuel <;> simp [pyReplaceAux]
  | _ :: _, 0, _ => by simp [pyReplaceAux]
  | c :: tl, fuel + 1, h => by
    obtain ⟨h1, h2⟩ := occurs_cons_eq_false h
    simp [pyReplaceAux, h1, pyReplaceAux_of_not_occurs new tl fuel h2]

theorem pyReplace_of_not_occurs {old : Str} (s new : Str)
    (h : occurs old s = false) : pyReplace s old new = s :=
  pyReplaceAux_of_not_occurs new s s.length h

theorem pyReplaceAux_cons (old new : Str) (fuel : Nat) (c : Char) (tl : Str) :
    pyReplaceAux old new (fuel + 1) (c :: tl) =
      if old.isPrefixOf (c :: tl) ∧ old ≠ [] then
        new ++ pyReplaceAux old new fuel (List.drop (old.length - 1) tl)
      else c :: pyReplaceAux old new fuel tl := rfl

theorem pyReplace_append_self {old : Str} (new rest : Str) (hne : old ≠ [])
    (h : occurs old rest = false) :
    pyReplace (old ++ rest) old new = new ++ rest := by
  obtain ⟨o, os, rfl⟩ : ∃ o os, old = o :: os := by
    cases old with
    | nil => exact absurd rfl hne
    | cons o os => exact ⟨o, os, rfl⟩
  have hpre : (o :: os).isPrefixOf (o :: (os ++ rest)) = true := by
    rw [List.isPrefixOf_iff_prefix]
    exact ⟨rest, by simp⟩
  have hdrop : List.drop ((o :: os).length - 1) (os ++ rest) = rest := by
    simp [List.drop_left os rest]
  unfold pyReplace
  rw [List.cons_append, List.length_cons, pyReplaceAux_cons, if_pos ⟨hpre, by simp⟩,
    hdrop, pyReplaceAux_of_not_occurs new rest _ h]

theorem pySplit_ne_nil (sep : Char) (s : Str) : pySplit sep s ≠ [] := by
  cases s with
  | nil => simp [pySplit]
  | cons c tl =>
    simp only [pySplit]
    split
    · simp
    · split <;> simp

theorem pySplit_append {sep : Char} :
    ∀ (b p : Str), sep ∉ b → pySplit sep (b ++ sep :: p) = b :: pySplit sep p
  | [], p, _ => by simp [pySplit]
  | c :: bs, p, h => by
    have hc : ¬ c = sep := fun hcs => h (by simp [hcs])
    have ih := pySplit_append bs p (fun hm => h (List.mem_cons_of_mem c hm))
    simp only [List.cons_append, pySplit, if_neg hc, List.append_eq, ih]

theorem pyJoin_pySplit (sep : Char) : ∀ (s : Str), pyJoinStr [sep] (pySplit sep s) = s
  | [] => rfl
  | c :: tl => by
    have ih := pyJoin_pySplit sep tl
    rcases htl : pySplit sep tl with _ | ⟨h, t⟩
    · exact absurd htl (pySplit_ne_nil sep tl)
    · rw [htl] at ih
      by_cases hc : c = sep
      · subst hc
        simp only [pySplit, if_pos rfl, htl, pyJoinStr]
        simpa using ih
      · simp only [pySplit, if_neg hc, htl]
        cases t with
        | nil => simpa [pyJoinStr] using congrArg (c :: ·) ih
        | cons u us => simpa [pyJoinStr] using congrArg (c :: ·) ih

theorem drop_append_cons (p r : Str) (c : Char) :
    List.drop (p.length + 1) (p ++ c :: r) = r := by
  have h1 : p ++ c :: r = (p ++ [c]) ++ r := by simp
  have h2 : p.length + 1 = (p ++ [c]).length := by simp
  rw [h1, h2]
  exact List.drop_left _ _

/-! ### Trace lemmas -/

theorem fetches_nil : fetches [] = [] := rfl

theorem fetches_cons_makedirs (p : Str) (tr : List Effect) :
    fetches (Effect.makedirs p :: tr) = fetches tr := rfl

theorem fetches_cons_listRemote (r : Str) (tr : List Effect) :
    fetches (Effect.listRemote r :: tr) = fetches tr := rfl

theorem fetches_cons_fetch (s d : Str) (tr : List Effect) :
    fetches (Effect.fetch s d :: tr) = (s, d) :: fetches tr := rfl

theorem fetches_append (a b : List Effect) :
    fetches (a ++ b) = fetches a ++ fetches b :=
  List.filterMap_append a b _

theorem fetches_mkParentDirs (w : World) (path : Str) :
    ∀ (missing created : List Str), fetches (mkParentDirs w path created missing) = []
  | [], _ => rfl
  | f :: fs, created => by
    by_cases hf : '/' ∈ f
    · simp only [mkParentDirs, if_pos hf]
      split
      · exact fetches_mkParentDirs w path fs created
      · rw [fetches_cons_makedirs]
        exact fetches_mkParentDirs w path fs _
    · simp only [mkParentDirs, if_neg hf]
      exact fetches_mkParentDirs w path fs created

theorem fetches_download_files (rp path : Str) (files : List Str) :
    fetches (download_files_with_pget rp path files) =
      files.map (fun f => (joinSlash rp f, joinSlash path f)) := by
  induction files with
  | nil => rfl
  | cons f fs ih =>
    simp only [download_files_with_pget, List.map_cons] at ih ⊢
    rw [fetches_cons_fetch, ih]

/-- The missing set when `path` exists is exactly `check_files_exist`. -/
theorem missingFiles_of_exists (w : World) (path : Str) (files : List Str)
    (hex : w.pathExists path = true) :
    missingFiles w path files = check_files_exist w files path := by
  simp [missingFiles, check_files_exist, hex]

theorem missingFiles_of_not_exists (w : World) (path : Str) (files : List Str)
    (hnex : w.pathExists path = false) :
    missingFiles w path files = files := by
  simp [missingFiles, hnex]

/-- The fetch tasks a reconcile stage launches are exactly one per missing
file, with the f-string source and destination. -/
theorem fetches_reconcile (w : World) (path rp : Str) (files : List Str) :
    fetches (reconcile w path rp files) =
      (missingFiles w path files).map (fun f => (joinSlash rp f, joinSlash path f)) := by
  unfold reconcile
  rw [fetches_append, fetches_append, fetches_mkParentDirs]
  have h1 : fetches (if !w.pathExists path then [Effect.makedirs path] else []) = [] := by
    split <;> rfl
  rw [h1]
  by_cases hm : (missingFiles w path files).length > 0
  · rw [if_pos hm, fetches_download_files]
    rfl
  · rw [if_neg hm]
    have : missingFiles w path files = [] := by
      cases h : missingFiles w path files with
      | nil => rfl
      | cons a l => rw [h] at hm; simp at hm
    rw [this]
    rfl

/-! ### Unfolding lemmas for the driver -/

theorem maybe_download_none (w : World) (path : Str) (rfiles : Option (List Str)) :
    maybe_download_with_pget w path none rfiles = .ok (path, []) := rfl

theorem maybe_download_empty (w : World) (path : Str) (rfiles : Option (List Str)) :
    maybe_download_with_pget w path (some []) rfiles = .ok (path, []) := rfl

theorem maybe_download_some_files (w : World) (path rp : Str) (files : List Str)
    (hrp : rp ≠ []) :
    maybe_download_with_pget w path (some rp) (some files) =
      .ok (path, reconcile w path (normalizeRemote rp) files) := by
  simp only [maybe_download_with_pget, if_neg hrp, List.nil_append]

theorem maybe_download_some_listed (w : World) (path rp : Str) (files : List Str)
    (hrp : rp ≠ [])
    (hls : list_remote_filenames w (normalizeRemote rp) = .ok files) :
    maybe_download_with_pget w path (some rp) none =
      .ok (path, Effect.listRemote (normalizeRemote rp) ::
        reconcile w path (normalizeRemote rp) files) := by
  simp only [maybe_download_with_pget, if_neg hrp, hls, List.singleton_append]

/-! ### Claims -/

/-- Claim C2, corrected.  The single-file fetch dispatches on the literal
suffix `"json"`, with no dot: the command is curl exactly when the source
locator ends in `"json"`, and pget exactly otherwise.  (The claim's
`".json"` suffix is refuted by `C2_counterexample`.) -/
theorem C2_dispatch_on_json_suffix (remote dest : Str) :
    (fetch_args remote dest).headI =
      (if pyEndswith remote (str "json") then str "curl" else str "pget") := by
  unfold fetch_args
  split <;> rfl

/-- Claim C2, counterexample to the claim as stated: a locator that ends
in `"json"` but not in `".json"` dispatches to curl, not pget. -/
theorem C2_counterexample :
    (fetch_args (str "https://storage.googleapis.com/b/foojson")
        (str "p/foojson")).headI = str "curl" ∧
    pyEndswith (str "https://storage.googleapis.com/b/foojson") (str ".json") = false := by
  decide

/-- Claim C3, corrected.  `download_file_with_pget` — the fetch task the
reconciler fans out — never inspects the exit code of the external tool,
so it completes without error in both branches, for every exit code; the
exit-code check (`subprocess.check_call`) lives only in the separate
synchronous helper `download_file`, which fails exactly on a non-zero
exit and is not used by the fan-out. -/
theorem C3_no_exit_code_check (w : World) (remote dest file lf : Str) :
    (download_file_with_pget w remote dest).isOk = true ∧
    (download_file w file lf).isOk = (w.procExit [str "pget", file, lf] == 0) := by
  constructor
  · rfl
  · unfold download_file
    by_cases hz : w.procExit [str "pget", file, lf] = 0
    · simp [hz, Except.isOk, Except.toBool]
    · simp [hz, Except.isOk, Except.toBool]

/-- Claim C3, counterexample to the claim as stated: in a world where the
external tool exits with code 1, a fetch task dispatched to the pget
branch still completes without propagating any process-execution error. -/
theorem C3_counterexample :
    (download_file_with_pget
        ⟨fun _ => true, fun _ => [], true, fun _ _ => [], fun _ => 1, fun _ => [], fun _ => []⟩
        (str "https://storage.googleapis.com/b/weights.bin")
        (str "p/weights.bin")).isOk = true ∧
    (fetch_args (str "https://storage.googleapis.com/b/weights.bin")
        (str "p/weights.bin")).headI = str "pget" ∧
    World.procExit
        ⟨fun _ => true, fun _ => [], true, fun _ _ => [], fun _ => 1, fun _ => [], fun _ => []⟩
        (fetch_args (str "https://storage.googleapis.com/b/weights.bin")
          (str "p/weights.bin")) ≠ 0 := by
  refine ⟨rfl, by decide, by decide⟩

/-- Claim C9, confirmed.  `get_env_var_or_default` returns the default
when the variable is unset or set to the empty string, and otherwise
returns the environment value unchanged. -/
theorem C9_env_default (env : Str → Option Str) (v d : Str) :
    ((env v = none ∨ env v = some []) → get_env_var_or_default env v d = d) ∧
    (∀ s, env v = some s → s ≠ [] → get_env_var_or_default env v d = s) := by
  constructor
  · intro h
    rcases h with h | h <;> simp [get_env_var_or_default, h]
  · intro s hs hne
    have : s.length > 0 := List.length_pos.mpr hne
    simp [get_env_var_or_default, hs, this]

/-- Claim C9, witness. -/
theorem C9_env_default_witness :
    get_env_var_or_default (fun _ => some []) (str "MODEL_PATH") (str "models") = str "models" :=
  (C9_env_default (fun _ => some []) (str "MODEL_PATH") (str "models")).1 (Or.inr rfl)

/-- Claim C10, confirmed.  An empty-string remote location is falsy in
`if remote_path:`, so the call behaves exactly like an absent remote:
no effects, `path` returned unchanged. -/
theorem C10_empty_remote_is_noop (w : World) (path : Str) (rfiles : Option (List Str)) :
    maybe_download_with_pget w path (some []) rfiles = .ok (path, []) ∧
    maybe_download_with_pget w path (some []) rfiles =
      maybe_download_with_pget w path none rfiles := by
  exact ⟨rfl, rfl⟩

/-- Claim C4, confirmed.  With an absent remote location the driver
returns `path` with an empty effect trace, and whenever the driver
returns at all its result is the input `path`. -/
theorem C4_returns_path (w : World) (path : Str) (remote : Option Str)
    (rfiles : Option (List Str)) :
    maybe_download_with_pget w path none rfiles = .ok (path, []) ∧
    ∀ r, maybe_download_with_pget w path remote rfiles = .ok r → r.1 = path := by
  refine ⟨rfl, ?_⟩
  intro r h
  cases remote with
  | none =>
    rw [maybe_download_none] at h
    cases h
    rfl
  | some rp0 =>
    by_cases h0 : rp0 = []
    · subst h0
      rw [maybe_download_empty] at h
      cases h
      rfl
    · cases rfiles with
      | some fs =>
        rw [maybe_download_some_files w path rp0 fs h0] at h
        cases h
        rfl
      | none =>
        cases hl : list_remote_filenames w (normalizeRemote rp0) with
        | error e =>
          simp only [maybe_download_with_pget, if_neg h0, hl] at h
          simp at h
        | ok fs =>
          rw [maybe_download_some_listed w path rp0 fs h0 hl] at h
          cases h
          rfl

/-- Claim C4, witness: instantiated with a remote present and all files
already local, the second conjunct applies to the concrete result. -/
theorem C4_returns_path_witness :
    (maybe_download_with_pget
        ⟨fun _ => true, fun _ => [str "a.bin"], true, fun _ _ => [], fun _ => 0, fun _ => [], fun _ => []⟩
        (str "models") none (some [str "a.bin"]) = .ok (str "models", [])) ∧
    ((str "models", ([] : List Effect)) : Str × List Effect).1 = str "models" := by
  have h := C4_returns_path
    ⟨fun _ => true, fun _ => [str "a.bin"], true, fun _ _ => [], fun _ => 0, fun _ => [], fun _ => []⟩
    (str "models") (some (str "gs://b/m")) (some [str "a.bin"])
  exact ⟨h.1, h.2 (str "models", []) (by decide)⟩

/-- Claim C6, confirmed.  When the remote listing is needed (remote
present, no explicit file list) and the cloud-listing capability is
unavailable, the driver fails with the `MissingDependency` error before
performing any effect; there is no retry or recovery. -/
theorem C6_missing_dependency (w : World) (path rp : Str)
    (hrp : rp ≠ []) (hgcs : w.gcsAvailable = false) :
    maybe_download_with_pget w path (some rp) none = .error .MissingDependency := by
  have hl : list_remote_filenames w (normalizeRemote rp) = .error .MissingDependency := by
    unfold list_remote_filenames
    rw [hgcs]
    simp
  simp only [maybe_download_with_pget, if_neg hrp, hl]

/-- Claim C6, witness. -/
theorem C6_missing_dependency_witness :
    maybe_download_with_pget
        ⟨fun _ => true, fun _ => [], false, fun _ _ => [], fun _ => 0, fun _ => [], fun _ => []⟩
        (str "models") (some (str "gs://b/m")) none = .error .MissingDependency :=
  C6_missing_dependency
    ⟨fun _ => true, fun _ => [], false, fun _ _ => [], fun _ => 0, fun _ => [], fun _ => []⟩
    (str "models") (str "gs://b/m") (by decide) rfl

/-- Claim C1, confirmed.  When `path` exists, the fetch tasks launched are
exactly one per expected name absent from the literal top-level directory
listing (`check_files_exist`), and — since `os.listdir` entries never
contain a path separator — every expected name containing `/` is
classified as missing, even when the nested file is already in place. -/
theorem C1_missing_top_level_literal (w : World) (path rp : Str) (files : List Str)
    (hrp : rp ≠ [])
    (hex : w.pathExists path = true)
    (hent : ∀ e ∈ w.listdir path, '/' ∉ e) :
    ∃ tr, maybe_download_with_pget w path (some rp) (some files) = .ok (path, tr) ∧
      fetches tr = (check_files_exist w files path).map
        (fun f => (joinSlash (normalizeRemote rp) f, joinSlash path f)) ∧
      ∀ f ∈ files, '/' ∈ f → f ∈ check_files_exist w files path := by
  refine ⟨reconcile w path (normalizeRemote rp) files,
    maybe_download_some_files w path rp files hrp, ?_, ?_⟩
  · rw [fetches_reconcile, missingFiles_of_exists w path files hex]
  · intro f hf hslash
    have hnot : f ∉ w.listdir path := fun hmem => hent f hmem hslash
    unfold check_files_exist
    simp only [List.mem_filter]
    exact ⟨hf, by simp [hnot]⟩

/-- Claim C1, witness: `weights/model.bin` counts as missing although the
listing holds only top-level names. -/
theorem C1_missing_top_level_literal_witness :
    ∃ tr, maybe_download_with_pget
        ⟨fun _ => true, fun _ => [str "config.json", str "weights"], true, fun _ _ => [],
          fun _ => 0, fun _ => [], fun _ => []⟩
        (str "models") (some (str "gs://b/m"))
        (some [str "config.json", str "weights/model.bin"]) = .ok (str "models", tr) ∧
      fetches tr = (check_files_exist
          ⟨fun _ => true, fun _ => [str "config.json", str "weights"], true, fun _ _ => [],
            fun _ => 0, fun _ => [], fun _ => []⟩
          [str "config.json", str "weights/model.bin"] (str "models")).map
        (fun f => (joinSlash (normalizeRemote (str "gs://b/m")) f, joinSlash (str "models") f)) ∧
      ∀ f ∈ [str "config.json", str "weights/model.bin"], '/' ∈ f →
        f ∈ check_files_exist
          ⟨fun _ => true, fun _ => [str "config.json", str "weights"], true, fun _ _ => [],
            fun _ => 0, fun _ => [], fun _ => []⟩
          [str "config.json", str "weights/model.bin"] (str "models") :=
  C1_missing_top_level_literal
    ⟨fun _ => true, fun _ => [str "config.json", str "weights"], true, fun _ _ => [],
      fun _ => 0, fun _ => [], fun _ => []⟩
    (str "models") (str "gs://b/m") [str "config.json", str "weights/model.bin"]
    (by decide) rfl (by decide)

/-- Claim C5, confirmed.  On a second call with identical arguments, in
the world left after a first call in which every expected name (supplied
or re-listed) matches a top-level entry of the existing directory, zero
fetch tasks are launched. -/
theorem C5_second_call_no_fetch (w : World) (path rp : Str)
    (rfiles : Option (List Str)) (files : List Str)
    (hrp : rp ≠ [])
    (hfiles : rfiles = some files ∨
      (rfiles = none ∧ list_remote_filenames w (normalizeRemote rp) = .ok files))
    (hex : w.pathExists path = true)
    (hall : ∀ f ∈ files, f ∈ w.listdir path) :
    ∃ tr, maybe_download_with_pget w path (some rp) rfiles = .ok (path, tr) ∧
      fetches tr = [] := by
  have hmiss : missingFiles w path files = [] := by
    rw [missingFiles_of_exists w path files hex]
    unfold check_files_exist
    simp only [List.filter_eq_nil_iff]
    intro a ha
    simp [hall a ha]
  rcases hfiles with h | ⟨h, hls⟩
  · subst h
    refine ⟨_, maybe_download_some_files w path rp files hrp, ?_⟩
    rw [fetches_reconcile, hmiss]
    rfl
  · subst h
    refine ⟨_, maybe_download_some_listed w path rp files hrp hls, ?_⟩
    rw [fetches_cons_listRemote, fetches_reconcile, hmiss]
    rfl

/-- Claim C5, witness. -/
theorem C5_second_call_no_fetch_witness :
    ∃ tr, maybe_download_with_pget
        ⟨fun _ => true, fun _ => [str "config.json", str "weights.bin"], true, fun _ _ => [],
          fun _ => 0, fun _ => [], fun _ => []⟩
        (str "models") (some (str "gs://b/m"))
        (some [str "config.json", str "weights.bin"]) = .ok (str "models", tr) ∧
      fetches tr = [] :=
  C5_second_call_no_fetch
    ⟨fun _ => true, fun _ => [str "config.json", str "weights.bin"], true, fun _ _ => [],
      fun _ => 0, fun _ => [], fun _ => []⟩
    (str "models") (str "gs://b/m") (some [str "config.json", str "weights.bin"])
    [str "config.json", str "weights.bin"]
    (by decide) (Or.inl rfl) rfl (by decide)

/-- Claim C7, confirmed.  With a remote present and a non-existent local
directory, the driver creates `path` (`os.makedirs`, which creates
intermediate segments) and treats every expected file as missing: the
missing set is the full expected list and one fetch task is launched per
expected file. -/
theorem C7_creates_dir_all_missing (w : World) (path rp : Str) (files : List Str)
    (hrp : rp ≠ [])
    (hnex : w.pathExists path = false) :
    ∃ tr, maybe_download_with_pget w path (some rp) (some files) = .ok (path, tr) ∧
      Effect.makedirs path ∈ tr ∧
      missingFiles w path files = files ∧
      fetches tr = files.map
        (fun f => (joinSlash (normalizeRemote rp) f, joinSlash path f)) := by
  refine ⟨reconcile w path (normalizeRemote rp) files,
    maybe_download_some_files w path rp files hrp, ?_,
    missingFiles_of_not_exists w path files hnex, ?_⟩
  · unfold reconcile
    rw [hnex]
    simp
  · rw [fetches_reconcile, missingFiles_of_not_exists w path files hnex]

/-- Claim C7, witness. -/
theorem C7_creates_dir_all_missing_witness :
    ∃ tr, maybe_download_with_pget
        ⟨fun _ => false, fun _ => [], true, fun _ _ => [], fun _ => 0, fun _ => [], fun _ => []⟩
        (str "out/models") (some (str "gs://b/m")) (some [str "a.bin", str "b.bin"]) =
          .ok (str "out/models", tr) ∧
      Effect.makedirs (str "out/models") ∈ tr ∧
      missingFiles
        ⟨fun _ => false, fun _ => [], true, fun _ _ => [], fun _ => 0, fun _ => [], fun _ => []⟩
        (str "out/models") [str "a.bin", str "b.bin"] = [str "a.bin", str "b.bin"] ∧
      fetches tr = [str "a.bin", str "b.bin"].map
        (fun f => (joinSlash (normalizeRemote (str "gs://b/m")) f, joinSlash (str "out/models") f)) :=
  C7_creates_dir_all_missing
    ⟨fun _ => false, fun _ => [], true, fun _ _ => [], fun _ => 0, fun _ => [], fun _ => []⟩
    (str "out/models") (str "gs://b/m") [str "a.bin", str "b.bin"] (by decide) rfl

/-- Claim C8, confirmed.  For a remote location in either the native
`gs://bucket/prefix` form or the equivalent public HTTPS form (with the
scheme and host not recurring inside the bucket/prefix text, and the
bucket name free of separators), the listing returns, for every object
named `prefix ++ "/" ++ rest` under the location's path prefix, exactly
`rest`: the object name with the prefix and its separator stripped. -/
theorem C8_listing_strips_path_prefix (w : World) (bucket pfx remote : Str)
    (rests : List Str)
    (hgcs : w.gcsAvailable = true)
    (hform : remote = gsScheme ++ (bucket ++ '/' :: pfx) ∨
             remote = httpsHost ++ (bucket ++ '/' :: pfx))
    (hbucket : '/' ∉ bucket)
    (h1 : occurs httpsHost (bucket ++ '/' :: pfx) = false)
    (h2 : occurs gsScheme (bucket ++ '/' :: pfx) = false)
    (h3 : occurs httpsHost (gsScheme ++ (bucket ++ '/' :: pfx)) = false)
    (hblobs : w.blobs bucket pfx = rests.map (fun r => pfx ++ '/' :: r)) :
    list_remote_filenames w remote = .ok rests := by
  have hstrip : pyReplace (pyReplace remote httpsHost []) gsScheme [] = bucket ++ '/' :: pfx := by
    rcases hform with hg | hh
    · rw [hg, pyReplace_of_not_occurs _ [] h3,
        pyReplace_append_self [] _ (by decide) h2, List.nil_append]
    · rw [hh, pyReplace_append_self [] _ (by decide) h1, List.nil_append,
        pyReplace_of_not_occurs _ [] h2]
  have hsplit : pySplit '/' (bucket ++ '/' :: pfx) = bucket :: pySplit '/' pfx :=
    pySplit_append bucket pfx hbucket
  have hjoin : pyJoinStr (str "/") (pySplit '/' pfx) = pfx := by
    have hsep : str "/" = ['/'] := rfl
    rw [hsep]
    exact pyJoin_pySplit '/' pfx
  have hmap : ∀ (l : List Str),
      (l.map (fun r => pfx ++ '/' :: r)).map (fun n => List.drop (pfx.length + 1) n) = l := by
    intro l
    induction l with
    | nil => rfl
    | cons r rs ih => simp only [List.map_cons, ih, drop_append_cons]
  simp only [list_remote_filenames, hgcs, ite_true, hstrip, hsplit, List.headI,
    List.tail_cons, hjoin, hblobs, hmap]

/-- Claim C8, witness: listing `gs://b/m/x` over objects
`m/x/a.bin` and `m/x/c/d.json` returns `a.bin` and `c/d.json`. -/
theorem C8_listing_strips_path_prefix_witness :
    list_remote_filenames
        ⟨fun _ => true, fun _ => [], true,
          fun bk px => if bk = str "b" ∧ px = str "m/x"
            then [str "m/x/a.bin", str "m/x/c/d.json"] else [],
          fun _ => 0, fun _ => [], fun _ => []⟩
        (str "gs://b/m/x") = .ok [str "a.bin", str "c/d.json"] :=
  C8_listing_strips_path_prefix
    ⟨fun _ => true, fun _ => [], true,
      fun bk px => if bk = str "b" ∧ px = str "m/x"
        then [str "m/x/a.bin", str "m/x/c/d.json"] else [],
      fun _ => 0, fun _ => [], fun _ => []⟩
    (str "b") (str "m/x") (str "gs://b/m/x") [str "a.bin", str "c/d.json"]
    rfl (Or.inl (by decide)) (by decide) (by decide) (by decide) (by decide) (by decide)
